import Mathlib

/-!
Shallow embedding of the kai Qt GUI repository: the chat model
(`src/qtsrc/src/models/chatmodel.cpp`), the diff model
(`src/qtsrc/src/models/diffmodel.cpp`), the two diff-line parsers
(`src/qtsrc/src/components/diffview.cpp` and
`src/qtsrc/src/components/diffviewer/diffview.cpp`), and the
file-watcher IPC manager
(`src/qtsrc/src/backend/communicationmanager.cpp`).

QString is modelled as `List Char`, QStringList as `List String` where the
strings are opaque payloads, QVariant and QModelIndex as small inductives
mirroring the Qt semantics used by the code (a valid QModelIndex always
carries a non-negative row, because the models only hand out indexes made
with createIndex on real rows).
-/

set_option maxRecDepth 10000

/-- Characters of a QString, for code that inspects strings character by
character. -/
abbrev QChars := List Char

/-- Coerce a Lean string literal to the character-list model of QString. -/
def qstr (s : String) : QChars := s.data

/-- QVariant as used by the models: either invalid (null) or an int or a
string payload. -/
inductive QVariant where
  | invalid
  | ofInt (i : Int)
  | ofString (s : String)
  deriving DecidableEq, Repr

/-- QModelIndex as the models receive it: invalid, or valid with a
non-negative row (Qt's createIndex is only called on actual row numbers). -/
inductive QModelIndex where
  | invalid
  | valid (row : Nat)
  deriving DecidableEq, Repr

/-- `QModelIndex::isValid()`. -/
def QModelIndex.isValid : QModelIndex → Bool
  | .invalid => false
  | .valid _ => true

/-- `QModelIndex::row()`: -1 for the invalid index. -/
def QModelIndex.row : QModelIndex → Int
  | .invalid => -1
  | .valid r => (r : Int)

/-- `Qt::DisplayRole`. -/
def DisplayRole : Nat := 0

/-- `ChatModel::MessageType` (chatmodel.h). -/
inductive MessageType where
  | User
  | LLM
  deriving DecidableEq, Repr

/-- `static_cast<int>` of a `ChatModel::MessageType` enum value. -/
def MessageType.toInt : MessageType → Int
  | .User => 0
  | .LLM => 1

/-- `ChatModel::MessageTypeRole = Qt::UserRole + 1` (chatmodel.h). -/
def MessageTypeRole : Nat := 257

/-- `ChatModel::MessageTextRole`. -/
def MessageTextRole : Nat := 258

/-- The observable state of a `ChatModel`: the message list, the
requestPending flag, and the number of requestPendingChanged signals
emitted so far (to reason about signal emission). -/
structure ChatModel where
  messages : List (MessageType × String)
  requestPending : Bool
  pendingChangedCount : Nat
  deriving DecidableEq, Repr

/-- A fresh `ChatModel` (constructor in chatmodel.cpp: requestPending
starts false, no messages). -/
def ChatModel.fresh : ChatModel :=
  { messages := [], requestPending := false, pendingChangedCount := 0 }

/-- `ChatModel::addMessage`: appends the record at the end
(chatmodel.cpp lines 9-13). -/
def ChatModel.addMessage (m : ChatModel) (type : MessageType) (text : String) :
    ChatModel :=
  { m with messages := m.messages ++ [(type, text)] }

/-- `ChatModel::rowCount`. -/
def ChatModel.rowCount (m : ChatModel) : Nat :=
  m.messages.length

/-- `ChatModel::data` (chatmodel.cpp lines 20-35): invalid QVariant for an
invalid index or an out-of-range row, otherwise the message type as int or
the message text, by role. -/
def ChatModel.data (m : ChatModel) (index : QModelIndex) (role : Nat) :
    QVariant :=
  if ¬ index.isValid ∨ index.row < 0 ∨ (m.messages.length : Int) ≤ index.row then
    .invalid
  else
    let msg := m.messages.getD index.row.toNat (MessageType.User, "")
    if role = MessageTypeRole then .ofInt msg.1.toInt
    else if role = MessageTextRole then .ofString msg.2
    else .invalid

/-- `ChatModel::setRequestPending` (chatmodel.cpp lines 44-51): writes the
flag and emits requestPendingChanged only when the value changes. -/
def ChatModel.setRequestPending (m : ChatModel) (value : Bool) : ChatModel :=
  if m.requestPending ≠ value then
    { m with requestPending := value,
             pendingChangedCount := m.pendingChangedCount + 1 }
  else
    m

/-- `DiffModel::FilePathRole = Qt::UserRole + 1` (diffmodel.h). -/
def FilePathRole : Nat := 257

/-- `DiffModel::FileContentRole`. -/
def FileContentRole : Nat := 258

/-- The state of a `DiffModel`: the two parallel lists
`m_filePaths` / `m_fileContents`. -/
structure DiffModel where
  filePaths : List String
  fileContents : List String
  deriving DecidableEq, Repr

/-- A fresh, empty `DiffModel`. -/
def DiffModel.fresh : DiffModel :=
  { filePaths := [], fileContents := [] }

/-- `DiffModel::rowCount` (diffmodel.cpp lines 10-16): the number of file
paths. -/
def DiffModel.rowCount (m : DiffModel) : Nat :=
  m.filePaths.length

/-- `DiffModel::data` (diffmodel.cpp lines 18-33): invalid QVariant for an
invalid index or a row at or past `m_filePaths.count()`; otherwise path,
content or path by role. -/
def DiffModel.data (m : DiffModel) (index : QModelIndex) (role : Nat) :
    QVariant :=
  if ¬ index.isValid ∨ (m.filePaths.length : Int) ≤ index.row then
    .invalid
  else
    if role = FilePathRole then .ofString (m.filePaths.getD index.row.toNat "")
    else if role = FileContentRole then
      .ofString (m.fileContents.getD index.row.toNat "")
    else if role = DisplayRole then
      .ofString (m.filePaths.getD index.row.toNat "")
    else .invalid

/-- `DiffModel::setFiles` (diffmodel.cpp lines 43-50): replaces both lists
wholesale. -/
def DiffModel.setFiles (m : DiffModel) (filePaths : List String)
    (fileContents : List String) : DiffModel :=
  let _ := m
  { filePaths := filePaths, fileContents := fileContents }

/-- `DiffModel::clearDiffModel` (diffmodel.cpp lines 52-59). -/
def DiffModel.clearDiffModel (m : DiffModel) : DiffModel :=
  let _ := m
  { filePaths := [], fileContents := [] }

/-- `DiffModel::getFileContent` (diffmodel.cpp lines 61-67): empty string
when the index is out of range. -/
def DiffModel.getFileContent (m : DiffModel) (index : Int) : String :=
  if 0 ≤ index ∧ index < (m.fileContents.length : Int) then
    m.fileContents.getD index.toNat ""
  else
    ""

/-- `DiffModel::getFilePath` (diffmodel.cpp lines 69-74). -/
def DiffModel.getFilePath (m : DiffModel) (index : Int) : String :=
  if 0 ≤ index ∧ index < (m.filePaths.length : Int) then
    m.filePaths.getD index.toNat ""
  else
    ""

/-- `DiffModel::addFile` (diffmodel.cpp lines 76-81): appends to both
lists. -/
def DiffModel.addFile (m : DiffModel) (filePath fileContent : String) :
    DiffModel :=
  { filePaths := m.filePaths ++ [filePath],
    fileContents := m.fileContents ++ [fileContent] }

/-- `DiffModel::removeFile` (diffmodel.cpp lines 83-90): removes the row
from both lists when `0 <= index < rowCount()`, otherwise does nothing. -/
def DiffModel.removeFile (m : DiffModel) (index : Int) : DiffModel :=
  if 0 ≤ index ∧ index < (m.rowCount : Int) then
    { filePaths := m.filePaths.eraseIdx index.toNat,
      fileContents := m.fileContents.eraseIdx index.toNat }
  else
    m

/-- `DiffModel::changeFileContent` (diffmodel.cpp lines 92-99): overwrites
the content at the row when `0 <= index < m_fileContents.count()`,
otherwise does nothing. -/
def DiffModel.changeFileContent (m : DiffModel) (index : Int)
    (newContent : String) : DiffModel :=
  if 0 ≤ index ∧ index < (m.fileContents.length : Int) then
    { m with fileContents := m.fileContents.set index.toNat newContent }
  else
    m

/-- `QString::split('\n')`: all parts, empty parts kept (Qt default).
Splitting the empty string yields one empty part. -/
def splitQ : QChars → List QChars
  | [] => [[]]
  | c :: rest =>
    if c = '\n' then [] :: splitQ rest
    else
      match splitQ rest with
      | [] => [[c]]
      | l :: ls => (c :: l) :: ls

/-- The `ChangeType` enum of the DiffView variants. -/
inductive ChangeType where
  | Unchanged
  | Added
  | Removed
  deriving DecidableEq, Repr

namespace SimpleDiffView

/-- `DiffView::DiffLine` of the simple variant
(src/qtsrc/src/components/diffview.h): tagged line text. -/
structure DiffLine where
  text : QChars
  changeType : ChangeType
  deriving DecidableEq, Repr

/-- The loop body of `DiffView::parseDiffContent`
(src/qtsrc/src/components/diffview.cpp lines 115-127): prefix scan of one
line. -/
def classifyLine : QChars → DiffLine
  | '+' :: t => ⟨t, .Added⟩
  | '-' :: t => ⟨t, .Removed⟩
  | l => ⟨l, .Unchanged⟩

/-- `DiffView::parseDiffContent` of the simple variant
(src/qtsrc/src/components/diffview.cpp lines 110-130): split on newline
and append one classified record per line. -/
def parseDiffContent (content : QChars) : List DiffLine :=
  (splitQ content).foldl (fun diffData line => diffData ++ [classifyLine line]) []

end SimpleDiffView

namespace HunkDiffView

/-- `DiffView::DiffLine` of the diffviewer variant
(src/qtsrc/src/components/diffviewer/diffview.h): tagged line text with
original/modified line numbers. -/
structure DiffLine where
  changeType : ChangeType
  text : QChars
  originalLineNumber : Nat
  modifiedLineNumber : Nat
  deriving DecidableEq, Repr

/-- A character matched by `\s` in QRegularExpression (PCRE2 default,
no Unicode properties). -/
def isQtSpace (c : Char) : Bool :=
  c = ' ' || c = '\t' || c = '\n' || c = '\r' || c = '\x0b' || c = '\x0c'

/-- Greedy `\s*`. -/
def dropQtSpaces (l : QChars) : QChars := l.dropWhile isQtSpace

/-- Numeric value of a digit run (most significant first). -/
def digitsToNat (ds : QChars) : Nat :=
  ds.foldl (fun acc d => acc * 10 + (d.toNat - 48)) 0

/-- `QString::toInt` on a run of digits: 0 when the value overflows a
32-bit int. -/
def qtToInt (n : Nat) : Nat :=
  if n ≤ 2147483647 then n else 0

/-- The optional `(?:,(\d+))?` group: consume a comma followed by digits
when present; otherwise (also when a comma is not followed by a digit)
consume nothing. -/
def parseOptComma (l : QChars) : QChars :=
  match l with
  | ',' :: rest =>
    let ds := rest.takeWhile Char.isDigit
    if ds = [] then l else rest.drop ds.length
  | _ => l

/-- Matching of the hunk-header regex
`^@@\s*-(\d+)(?:,(\d+))?\s*\+(\d+)(?:,(\d+))?\s*@@.*` against one line
(src/qtsrc/src/components/diffviewer/diffview.cpp line 142), returning
`captured(1).toInt()` and `captured(3).toInt()` on success. -/
def matchHunkHeader (line : QChars) : Option (Nat × Nat) :=
  match line with
  | '@' :: '@' :: r0 =>
    let r1 := dropQtSpaces r0
    match r1 with
    | '-' :: r2 =>
      let ds1 := r2.takeWhile Char.isDigit
      if ds1 = [] then none
      else
        let r4 := dropQtSpaces (parseOptComma (r2.drop ds1.length))
        match r4 with
        | '+' :: r5 =>
          let ds2 := r5.takeWhile Char.isDigit
          if ds2 = [] then none
          else
            let r7 := dropQtSpaces (parseOptComma (r5.drop ds2.length))
            match r7 with
            | '@' :: '@' :: _ => some (qtToInt (digitsToNat ds1), qtToInt (digitsToNat ds2))
            | _ => none
        | _ => none
    | _ => none
  | _ => none

/-- The for-loop of the diffviewer `DiffView::parseDiffContent`
(src/qtsrc/src/components/diffviewer/diffview.cpp lines 147-172), with the
running counters `originalLine`, `modifiedLine` and the `isFullAddition`
flag as arguments; a line starting with `---` skips the following line
(the `++i; continue`). -/
def parseLines : List QChars → Nat → Nat → Bool → List DiffLine × Bool
  | [], _, _, isFullAddition => ([], isFullAddition)
  | line :: rest, originalLine, modifiedLine, isFullAddition =>
    match matchHunkHeader line with
    | some (a, c) => parseLines rest a c isFullAddition
    | none =>
      if line.take 3 = ['-', '-', '-'] then
        match rest with
        | [] => ([], isFullAddition)
        | _ :: rest2 => parseLines rest2 originalLine modifiedLine isFullAddition
      else if line.take 1 = ['+'] then
        let r := parseLines rest originalLine (modifiedLine + 1) isFullAddition
        (⟨.Added, line.drop 1, 0, modifiedLine⟩ :: r.1, r.2)
      else if line.take 1 = ['-'] then
        let r := parseLines rest (originalLine + 1) modifiedLine false
        (⟨.Removed, line.drop 1, originalLine, 0⟩ :: r.1, r.2)
      else
        let r := parseLines rest (originalLine + 1) (modifiedLine + 1) false
        (⟨.Unchanged, line, originalLine, modifiedLine⟩ :: r.1, r.2)

/-- `DiffView::parseDiffContent` of the diffviewer variant
(src/qtsrc/src/components/diffviewer/diffview.cpp lines 138-187),
including the final full-addition rewrite that zeroes the line numbers. -/
def parseDiffContent (content : QChars) : List DiffLine :=
  let r := parseLines (splitQ content) 1 1 true
  if 0 < r.1.length ∧ r.2 = true then
    r.1.map (fun l => ⟨.Added, l.text, 0, 0⟩)
  else r.1

end HunkDiffView

/-! ### File-watcher IPC manager (src/qtsrc/src/backend/communicationmanager.cpp) -/

/-- The newline-buffer loop of `CommunicationManager::onFileChanged`
(communicationmanager.cpp lines 92-115): repeatedly take the prefix of the
buffer up to the first newline as one complete line, removing the line and
its newline; the remainder after the last newline stays in the buffer.
Written by structural recursion on the buffer; the theorems characterise
it as exactly that decomposition. -/
def processCompleteLines : QChars → List QChars × QChars
  | [] => ([], [])
  | c :: rest =>
    let r := processCompleteLines rest
    if c = '\n' then ([] :: r.1, r.2)
    else
      match r.1 with
      | [] => ([], c :: r.2)
      | l :: ls => ((c :: l) :: ls, r.2)

/-- Concatenation of complete lines, each followed by its newline. -/
def joinLines : List QChars → QChars
  | [] => []
  | l :: ls => l ++ '\n' :: joinLines ls

/-- The buffer step of `CommunicationManager::onFileChanged`
(communicationmanager.cpp lines 86-96): append the newly read data to the
buffer, then extract the complete lines. Returns the extracted lines and
the new buffer. -/
def onFileChanged (buffer newData : QChars) : List QChars × QChars :=
  processCompleteLines (buffer ++ newData)

/-- JSON values as delivered by QJsonDocument/QJsonValue. -/
inductive Json where
  | null
  | bool (b : Bool)
  | num (n : Int)
  | str (s : String)
  | arr (elems : List Json)
  | obj (fields : List (String × Json))

/-- `QJsonObject::operator[]` combined with `contains`: the value of a key
when present. -/
def getField (fields : List (String × Json)) (key : String) : Option Json :=
  match fields with
  | [] => none
  | (k, v) :: rest => if k = key then some v else getField rest key

/-- `obj["type"] == QJsonValue(s)`: true exactly when the field is present,
is a string, and equals `s`. -/
def typeIs (fields : List (String × Json)) (s : String) : Bool :=
  match getField fields "type" with
  | some (.str t) => t = s
  | _ => false

/-- The `files` loop of the diffResult branch
(communicationmanager.cpp lines 197-214): collect (path, content) of every
array element in order, failing with the first offending element's error
message. -/
def collectFiles : List Json → Except String (List String × List String)
  | [] => .ok ([], [])
  | .obj fileObj :: rest =>
    match getField fileObj "path", getField fileObj "content" with
    | some (.str path), some (.str content) =>
      match collectFiles rest with
      | .ok r => .ok (path :: r.1, content :: r.2)
      | .error e => .error e
    | _, _ => .error "Invalid file object in diffResult"
  | _ :: _ => .error "Invalid element in files array (not an object)"

/-- The models reachable from the communication manager, plus the error
notifications it has emitted (`errorReceived`). The signal connections in
the constructor (communicationmanager.cpp lines 23-31) route chatMessage
to `ChatModel::addMessage`, requestStatus to
`ChatModel::setRequestPending`, diffResult to `DiffModel::setFiles` and
diffApplied to `DiffModel::clearDiffModel`. -/
structure CommState where
  chat : ChatModel
  diff : DiffModel
  errors : List String
  deriving Repr

/-- `emit errorReceived(e)`: the error is recorded, nothing else happens. -/
def emitError (e : String) (st : CommState) : CommState :=
  { st with errors := st.errors ++ [e] }

/-- `CommunicationManager::processReceivedJson`
(communicationmanager.cpp lines 145-227) with the connected slots of the
chat and diff models inlined. -/
def processReceivedJson (obj : List (String × Json)) (st : CommState) :
    CommState :=
  if typeIs obj "chatMessage" then
    match getField obj "messageType", getField obj "text" with
    | some (.str messageTypeStr), some (.str text) =>
      if messageTypeStr = "User" then
        { st with chat := st.chat.addMessage .User text }
      else if messageTypeStr = "LLM" then
        { st with chat := st.chat.addMessage .LLM text }
      else
        emitError "Invalid messageType in chatMessage" st
    | _, _ => emitError "Invalid chatMessage format." st
  else if typeIs obj "requestStatus" then
    match getField obj "status" with
    | some (.bool status) =>
      { st with chat := st.chat.setRequestPending status }
    | _ => emitError "Invalid requestStatus format" st
  else if typeIs obj "diffApplied" then
    { st with diff := st.diff.clearDiffModel }
  else if typeIs obj "diffResult" then
    match getField obj "files" with
    | some (.arr filesArray) =>
      match collectFiles filesArray with
      | .ok r => { st with diff := st.diff.setFiles r.1 r.2 }
      | .error e => emitError e st
    | _ => emitError "Invalid diffResult format." st
  else
    st

/-- The body of the per-line loop in `CommunicationManager::onFileChanged`
(communicationmanager.cpp lines 100-114) applied to the outcome of
`QJsonDocument::fromJson` on one complete line: parse failure and
non-object documents only emit an error; objects go to
`processReceivedJson`. -/
def handleParsed (parsed : Option Json) (st : CommState) : CommState :=
  match parsed with
  | none => emitError "JSON Parse Error" st
  | some (.obj obj) => processReceivedJson obj st
  | some _ => emitError "Received data is not a JSON object." st

/-! ### Wire format of sendChatMessage in two variants (claim C8) -/

/-- JSON string escaping as performed by `QJsonDocument::toJson`. -/
def escapeJsonChar (c : Char) : QChars :=
  if c = '"' then ['\\', '"']
  else if c = '\\' then ['\\', '\\']
  else if c = '\n' then ['\\', 'n']
  else if c = '\t' then ['\\', 't']
  else if c = '\r' then ['\\', 'r']
  else if c = '\x08' then ['\\', 'b']
  else if c = '\x0c' then ['\\', 'f']
  else if c.toNat < 32 then
    ['\\', 'u', '0', '0',
     (Nat.digitChar (c.toNat / 16)), (Nat.digitChar (c.toNat % 16))]
  else [c]

/-- A serialized JSON string literal. -/
def serializeJsonString (s : String) : QChars :=
  '"' :: (s.data.map escapeJsonChar).flatten ++ ['"']

/-- `QJsonObject::insert` on the key-sorted flat string map QJsonObject
keeps internally. -/
def qjsonInsert (key value : String) :
    List (String × String) → List (String × String)
  | [] => [(key, value)]
  | (k, w) :: rest =>
    if key < k then (key, value) :: (k, w) :: rest
    else if key = k then (key, value) :: rest
    else (k, w) :: qjsonInsert key value rest

/-- `QJsonDocument(obj).toJson(QJsonDocument::Compact)` for a flat
all-string object. -/
def serializeFlatObj (fields : List (String × String)) : QChars :=
  '\x7b' :: (List.intercalate [',']
    (fields.map (fun kv =>
      serializeJsonString kv.1 ++ ':' :: serializeJsonString kv.2)))
    ++ ['\x7d']

/-- `CommunicationManager::sendChatMessage` of the file-based variant
(src/qtsrc/src/backend/communicationmanager.cpp lines 230-235): builds
the QJsonObject from the initializer list (type first, then text) and
serializes it compactly via sendJson. -/
def sendChatMessageFileVariant (message : String) : QChars :=
  serializeFlatObj (qjsonInsert "text" message
    (qjsonInsert "type" "chatMessage" []))

/-- `CommunicationManager::sendChatMessage` of the process-based variant
(src/qtsrc/src/components/backend/communicationmanager.cpp lines 13-18):
inserts type then text and serializes compactly via its sendJson. -/
def sendChatMessageProcessVariant (message : String) : QChars :=
  serializeFlatObj (qjsonInsert "text" message
    (qjsonInsert "type" "chatMessage" []))

/-! ### Operation sequences on the diff model (claim C2) -/

/-- The public mutating operations of `DiffModel`. -/
inductive DiffOp where
  | addFile (path content : String)
  | removeFile (index : Int)
  | changeFileContent (index : Int) (content : String)
  | clearDiffModel
  | setFiles (paths contents : List String)

/-- Run one operation on the model. -/
def applyDiffOp (m : DiffModel) : DiffOp → DiffModel
  | .addFile p c => m.addFile p c
  | .removeFile i => m.removeFile i
  | .changeFileContent i c => m.changeFileContent i c
  | .clearDiffModel => m.clearDiffModel
  | .setFiles ps cs => m.setFiles ps cs

/-- The side condition of claim C2: every setFiles call receives lists of
equal length; the other operations are unconstrained. -/
def diffOpOk : DiffOp → Prop
  | .setFiles ps cs => ps.length = cs.length
  | _ => True

/-- The spec-side reference semantics of claim C2 (glossary: "an in-memory
list of (file path, raw diff text) pairs"): the same operations acting on
one list of pairs. -/
def applyDiffOpPairs (l : List (String × String)) : DiffOp → List (String × String)
  | .addFile p c => l ++ [(p, c)]
  | .removeFile i =>
    if 0 ≤ i ∧ i < (l.length : Int) then l.eraseIdx i.toNat else l
  | .changeFileContent i c =>
    if 0 ≤ i ∧ i < (l.length : Int) then
      l.set i.toNat ((l.getD i.toNat ("", "")).1, c)
    else l
  | .clearDiffModel => []
  | .setFiles ps cs => ps.zip cs

/-- The coupling between a `DiffModel` and its pair-list view. -/
def DiffModelPairs (m : DiffModel) (l : List (String × String)) : Prop :=
  m.filePaths = l.map Prod.fst ∧ m.fileContents = l.map Prod.snd

/-- One entry of a diffResult files array paired with the (path, content)
it denotes: an object whose path and content fields are those strings. -/
def FileEntryMatches (e : Json) (pc : String × String) : Prop :=
  ∃ f, e = Json.obj f ∧ getField f "path" = some (.str pc.1) ∧
    getField f "content" = some (.str pc.2)

/-- The validity check of the chatMessage branch
(communicationmanager.cpp lines 153-167): messageType and text present and
strings, and messageType is User or LLM. -/
def chatMessageValid (obj : List (String × Json)) : Bool :=
  match getField obj "messageType", getField obj "text" with
  | some (.str mt), some (.str _) => mt = "User" || mt = "LLM"
  | _, _ => false

/-- The validity check of the requestStatus branch
(communicationmanager.cpp line 178): status present and boolean. -/
def requestStatusValid (obj : List (String × Json)) : Bool :=
  match getField obj "status" with
  | some (.bool _) => true
  | _ => false

/-- The validity check of the diffResult branch
(communicationmanager.cpp lines 192-214): files present, an array, and
every element an object with string path and content. -/
def diffResultValid (obj : List (String × Json)) : Bool :=
  match getField obj "files" with
  | some (.arr files) =>
    match collectFiles files with
    | .ok _ => true
    | .error _ => false
  | _ => false

/-! ### Theorems -/

/-- C10: `ChatModel::setRequestPending(v)` sets the requestPending flag to
v, emits requestPendingChanged exactly when v differs from the current
value, is idempotent (a second call with the same value changes nothing,
signals included), and never modifies the message list. -/
theorem claim_C10 (m : ChatModel) (v : Bool) :
    (m.setRequestPending v).requestPending = v ∧
    ((m.setRequestPending v).pendingChangedCount = m.pendingChangedCount + 1 ↔
      v ≠ m.requestPending) ∧
    ((m.setRequestPending v).pendingChangedCount = m.pendingChangedCount ↔
      v = m.requestPending) ∧
    (m.setRequestPending v).setRequestPending v = m.setRequestPending v ∧
    (m.setRequestPending v).messages = m.messages := by
  by_cases h : m.requestPending = v
  · simp [ChatModel.setRequestPending, h]
  · simp [ChatModel.setRequestPending, h, eq_comm, Ne.symm h]

/-- Running a sequence of addMessage calls appends the records in order. -/
theorem foldl_addMessage (calls : List (MessageType × String)) (m : ChatModel) :
    (calls.foldl (fun m c => m.addMessage c.1 c.2) m).messages
      = m.messages ++ calls := by
  induction calls generalizing m with
  | nil => simp
  | cons c cs ih =>
    rw [List.foldl_cons, ih]
    simp [ChatModel.addMessage]

/-- C6: after n addMessage calls on a fresh chat model, rowCount is n and
`data` returns the i-th call's sender (as int, MessageTypeRole) and text
(MessageTextRole), in insertion order. -/
theorem claim_C6 (calls : List (MessageType × String)) :
    (calls.foldl (fun m c => m.addMessage c.1 c.2) ChatModel.fresh).rowCount
      = calls.length ∧
    ∀ i, i < calls.length →
      (calls.foldl (fun m c => m.addMessage c.1 c.2) ChatModel.fresh).data
          (.valid i) MessageTypeRole
        = .ofInt (calls.getD i (.User, "")).1.toInt ∧
      (calls.foldl (fun m c => m.addMessage c.1 c.2) ChatModel.fresh).data
          (.valid i) MessageTextRole
        = .ofString (calls.getD i (.User, "")).2 := by
  have hm : (calls.foldl (fun m c => m.addMessage c.1 c.2)
      ChatModel.fresh).messages = calls := by
    rw [foldl_addMessage]
    rfl
  constructor
  · simp [ChatModel.rowCount, hm]
  · intro i hi
    have hcond : ¬ (¬ (QModelIndex.valid i).isValid ∨
        (QModelIndex.valid i).row < 0 ∨
        (((calls.foldl (fun m c => m.addMessage c.1 c.2)
            ChatModel.fresh).messages.length : Int) ≤ (QModelIndex.valid i).row)) := by
      simp [QModelIndex.isValid, QModelIndex.row, hm]
      omega
    constructor <;>
      · rw [ChatModel.data, if_neg hcond]
        simp [MessageTypeRole, MessageTextRole, QModelIndex.row, hm]

/-- C6 witness at a concrete call sequence. -/
theorem claim_C6_witness :
    ([(MessageType.User, "hi"), (MessageType.LLM, "yo")].foldl
        (fun m c => m.addMessage c.1 c.2) ChatModel.fresh).data
      (.valid 1) MessageTextRole = .ofString "yo" :=
  ((claim_C6 [(.User, "hi"), (.LLM, "yo")]).2 1 (by decide)).2

/-- C9: with the two stored lists of equal length, every index-taking
operation of the diff model is total: out-of-range getFilePath and
getFileContent return the empty string, out-of-range removeFile and
changeFileContent leave the model unchanged, and `data` returns the
invalid QVariant for an invalid index or a row at or past the end. -/
theorem claim_C9 (m : DiffModel) (i : Int) (c : String)
    (hlen : m.filePaths.length = m.fileContents.length)
    (h : i < 0 ∨ (m.rowCount : Int) ≤ i) :
    m.getFilePath i = "" ∧ m.getFileContent i = "" ∧
    m.removeFile i = m ∧ m.changeFileContent i c = m ∧
    ∀ idx role, (¬ idx.isValid ∨ (m.rowCount : Int) ≤ idx.row) →
      m.data idx role = .invalid := by
  have hout : ¬ (0 ≤ i ∧ i < (m.filePaths.length : Int)) := by
    simp only [DiffModel.rowCount] at h; omega
  have hout2 : ¬ (0 ≤ i ∧ i < (m.fileContents.length : Int)) := by
    simp only [DiffModel.rowCount] at h; omega
  refine ⟨?_, ?_, ?_, ?_, ?_⟩
  · rw [DiffModel.getFilePath, if_neg hout]
  · rw [DiffModel.getFileContent, if_neg hout2]
  · rw [DiffModel.removeFile, if_neg (by simpa [DiffModel.rowCount] using hout)]
  · rw [DiffModel.changeFileContent, if_neg hout2]
  · intro idx role hidx
    rw [DiffModel.data, if_pos (by simpa [DiffModel.rowCount] using hidx)]

/-- C9 witness at a concrete model and index. -/
theorem claim_C9_witness :
    DiffModel.fresh.getFilePath 5 = "" ∧
    DiffModel.fresh.removeFile 5 = DiffModel.fresh :=
  ⟨(claim_C9 DiffModel.fresh 5 "c" (by decide) (by decide)).1,
   (claim_C9 DiffModel.fresh 5 "c" (by decide) (by decide)).2.2.1⟩

/-- C8 counterexample: the claim asserts that for some message m the two
variants serialize different compact JSON; in fact both build the same
QJsonObject (type "chatMessage" plus text) and serialize it identically,
so no such m exists. -/
theorem claim_C8_counterexample :
    ¬ ∃ m : String,
      sendChatMessageFileVariant m ≠ sendChatMessageProcessVariant m := by
  rintro ⟨m, hm⟩
  exact hm rfl

/-- C8 amended: for every chat message m, the compact JSON serialized by
the file-based variant's sendChatMessage equals the one serialized by the
process-based variant's sendChatMessage (both send the object with type
"chatMessage" and the text). -/
theorem claim_C8_amended (m : String) :
    sendChatMessageFileVariant m = sendChatMessageProcessVariant m := rfl

/-- Mapping commutes with removal at an index. -/
theorem map_eraseIdx {α β : Type} (f : α → β) :
    ∀ (l : List α) (n : Nat), (l.eraseIdx n).map f = (l.map f).eraseIdx n
  | [], _ => by simp
  | a :: l, 0 => by simp [List.eraseIdx]
  | a :: l, n + 1 => by simp [List.eraseIdx, map_eraseIdx f l n]

/-- Mapping commutes with setting an index. -/
theorem map_set {α β : Type} (f : α → β) :
    ∀ (l : List α) (n : Nat) (a : α), (l.set n a).map f = (l.map f).set n (f a)
  | [], _, _ => by simp
  | b :: l, 0, a => by simp
  | b :: l, n + 1, a => by simp [map_set f l n a]

/-- Replacing a pair's second component does not change the firsts. -/
theorem map_fst_set_pair (l : List (String × String)) (c : String)
    (d : String × String) :
    ∀ n, (l.set n ((l.getD n d).1, c)).map Prod.fst = l.map Prod.fst := by
  induction l with
  | nil => intro n; simp
  | cons a l ih =>
    intro n
    cases n with
    | zero => simp
    | succ n => exact congrArg (List.cons a.1) (ih n)

/-- getD after map. -/
theorem map_getD {α β : Type} (f : α → β) :
    ∀ (l : List α) (n : Nat) (d : α), (l.map f).getD n (f d) = f (l.getD n d)
  | [], _, _ => rfl
  | _ :: _, 0, _ => rfl
  | _ :: l, n + 1, d => map_getD f l n d

/-- Each diff-model operation preserves the pair-list coupling. -/
theorem applyDiffOp_pairs (m : DiffModel) (l : List (String × String))
    (op : DiffOp) (hm : DiffModelPairs m l) (hop : diffOpOk op) :
    DiffModelPairs (applyDiffOp m op) (applyDiffOpPairs l op) := by
  obtain ⟨h1, h2⟩ := hm
  cases op with
  | addFile p c =>
    exact ⟨by simp [applyDiffOp, applyDiffOpPairs, DiffModel.addFile, h1],
           by simp [applyDiffOp, applyDiffOpPairs, DiffModel.addFile, h2]⟩
  | removeFile i =>
    have hc : (0 ≤ i ∧ i < ((m.rowCount : Nat) : Int)) ↔
        (0 ≤ i ∧ i < (l.length : Int)) := by
      simp [DiffModel.rowCount, h1]
    by_cases hin : 0 ≤ i ∧ i < (l.length : Int)
    · refine ⟨?_, ?_⟩ <;>
        simp [applyDiffOp, applyDiffOpPairs, DiffModel.removeFile,
          hc.mpr hin, hin, h1, h2, map_eraseIdx]
    · refine ⟨?_, ?_⟩ <;>
        simp [applyDiffOp, applyDiffOpPairs, DiffModel.removeFile,
          hc, hin, h1, h2]
  | changeFileContent i c =>
    have hc : (0 ≤ i ∧ i < (m.fileContents.length : Int)) ↔
        (0 ≤ i ∧ i < (l.length : Int)) := by
      simp [h2]
    have hpaths : (m.changeFileContent i c).filePaths = m.filePaths := by
      unfold DiffModel.changeFileContent
      split <;> rfl
    by_cases hin : 0 ≤ i ∧ i < (l.length : Int)
    · have hP : applyDiffOpPairs l (.changeFileContent i c)
          = l.set i.toNat ((l.getD i.toNat ("", "")).1, c) := by
        simp [applyDiffOpPairs, hin]
      have hM : applyDiffOp m (.changeFileContent i c)
          = m.changeFileContent i c := rfl
      constructor
      · rw [hM, hP, hpaths, h1, map_fst_set_pair]
      · have hcont : (m.changeFileContent i c).fileContents
            = m.fileContents.set i.toNat c := by
          unfold DiffModel.changeFileContent
          rw [if_pos (hc.mpr hin)]
        rw [hM, hP, hcont, h2, map_set]
    · refine ⟨?_, ?_⟩ <;>
        simp [applyDiffOp, applyDiffOpPairs, DiffModel.changeFileContent,
          hc, hin, h1, h2]
  | clearDiffModel =>
    exact ⟨by simp [applyDiffOp, applyDiffOpPairs, DiffModel.clearDiffModel],
           by simp [applyDiffOp, applyDiffOpPairs, DiffModel.clearDiffModel]⟩
  | setFiles ps cs =>
    have hlen : ps.length = cs.length := hop
    exact ⟨by simp [applyDiffOp, applyDiffOpPairs, DiffModel.setFiles,
             List.map_fst_zip ps cs (le_of_eq hlen)],
           by simp [applyDiffOp, applyDiffOpPairs, DiffModel.setFiles,
             List.map_snd_zip ps cs (ge_of_eq hlen)]⟩

/-- A whole operation sequence preserves the pair-list coupling. -/
theorem foldl_applyDiffOp_pairs (ops : List DiffOp) (m : DiffModel)
    (l : List (String × String)) (hm : DiffModelPairs m l)
    (hops : ∀ op ∈ ops, diffOpOk op) :
    DiffModelPairs (ops.foldl applyDiffOp m) (ops.foldl applyDiffOpPairs l) := by
  induction ops generalizing m l with
  | nil => exact hm
  | cons op ops ih =>
    exact ih _ _ (applyDiffOp_pairs m l op hm (hops op (by simp)))
      (fun o ho => hops o (by simp [ho]))

/-- C2: after any operation sequence starting from the fresh diff model in
which every setFiles gets equal-length lists, the two stored lists have
the same length, rowCount equals the number of stored pairs, and `data`
returns the path and the content supplied together as the i-th pair (as
computed by the pair-list reference semantics). -/
theorem claim_C2 (ops : List DiffOp) (m : DiffModel)
    (l : List (String × String))
    (hops : ∀ op ∈ ops, diffOpOk op)
    (hmdef : m = ops.foldl applyDiffOp DiffModel.fresh)
    (hldef : l = ops.foldl applyDiffOpPairs []) :
    m.filePaths.length = m.fileContents.length ∧
    m.rowCount = l.length ∧
    ∀ i, i < l.length →
      m.data (.valid i) FilePathRole = .ofString (l.getD i ("", "")).1 ∧
      m.data (.valid i) FileContentRole = .ofString (l.getD i ("", "")).2 := by
  have hpairs : DiffModelPairs m l := by
    rw [hmdef, hldef]
    exact foldl_applyDiffOp_pairs ops DiffModel.fresh [] ⟨rfl, rfl⟩ hops
  obtain ⟨h1, h2⟩ := hpairs
  refine ⟨by simp [h1, h2], by simp [DiffModel.rowCount, h1], ?_⟩
  intro i hi
  have hcond : ¬ (¬ (QModelIndex.valid i).isValid ∨
      ((m.filePaths.length : Int) ≤ (QModelIndex.valid i).row)) := by
    simp [QModelIndex.isValid, QModelIndex.row, h1]
    omega
  refine ⟨?_, ?_⟩
  · rw [DiffModel.data, if_neg hcond]
    simp [QModelIndex.row, FilePathRole, FileContentRole, h1, h2]
    cases l[i]? <;> simp
  · rw [DiffModel.data, if_neg hcond]
    simp [QModelIndex.row, FilePathRole, FileContentRole, h1, h2]
    cases l[i]? <;> simp

/-- C2 witness at a concrete operation sequence. -/
theorem claim_C2_witness :
    (([DiffOp.addFile "a" "x", DiffOp.setFiles ["p", "q"] ["u", "v"],
        DiffOp.changeFileContent 1 "w"].foldl applyDiffOp
      DiffModel.fresh).data (.valid 1) FileContentRole = .ofString "w") := by
  have h := claim_C2
    [DiffOp.addFile "a" "x", DiffOp.setFiles ["p", "q"] ["u", "v"],
      DiffOp.changeFileContent 1 "w"]
    _ _ (by
      intro op hop
      simp only [List.mem_cons, List.not_mem_nil, or_false] at hop
      rcases hop with rfl | rfl | rfl
      · trivial
      · exact rfl
      · trivial)
    rfl rfl
  have h2 := (h.2.2 1 (by decide)).2
  simpa using h2

/-- Unfolding equation for `processCompleteLines` on a non-empty buffer. -/
theorem processCompleteLines_cons (c : Char) (rest : QChars) :
    processCompleteLines (c :: rest) =
      if c = '\n' then
        ([] :: (processCompleteLines rest).1, (processCompleteLines rest).2)
      else
        match (processCompleteLines rest).1 with
        | [] => ([], c :: (processCompleteLines rest).2)
        | l :: ls => ((c :: l) :: ls, (processCompleteLines rest).2) := rfl

/-- Soundness of the line extraction: the extracted lines followed by the
leftover buffer reassemble the input, no extracted line contains a
newline, and the leftover buffer contains no newline. -/
theorem processCompleteLines_spec (buf : QChars) :
    joinLines (processCompleteLines buf).1 ++ (processCompleteLines buf).2
        = buf ∧
    (∀ l ∈ (processCompleteLines buf).1, '\n' ∉ l) ∧
    '\n' ∉ (processCompleteLines buf).2 := by
  induction buf with
  | nil => simp [processCompleteLines, joinLines]
  | cons c rest ih =>
    obtain ⟨ihj, ihl, ihr⟩ := ih
    rw [processCompleteLines_cons]
    split
    · next hc =>
      subst hc
      refine ⟨?_, ?_, ihr⟩
      · rw [joinLines]
        simp [ihj]
      · intro l hl
        rcases List.mem_cons.mp hl with rfl | hl
        · simp
        · exact ihl l hl
    · next hc =>
      split
      · next hls =>
        rw [hls] at ihj
        simp only [joinLines, List.nil_append] at ihj
        refine ⟨?_, by simp, ?_⟩
        · simp [joinLines, ihj]
        · intro hmem
          rcases List.mem_cons.mp hmem with h | h
          · exact hc h.symm
          · exact ihr h
      · next l ls hls =>
        rw [hls] at ihj ihl
        refine ⟨?_, ?_, ihr⟩
        · show c :: (l ++ '\n' :: joinLines ls ++ (processCompleteLines rest).2)
              = c :: rest
          rw [List.append_assoc]
          rw [joinLines, List.append_assoc] at ihj
          exact congrArg (c :: ·) ihj
        · intro x hx
          rcases List.mem_cons.mp hx with rfl | hx
          · intro hmem
            rcases List.mem_cons.mp hmem with h | h
            · exact hc h.symm
            · exact ihl l (List.mem_cons_self l ls) h
          · exact ihl x (List.mem_cons_of_mem l hx)

/-- A newline-free buffer yields no complete line. -/
theorem processCompleteLines_no_newline (r : QChars) (h : '\n' ∉ r) :
    processCompleteLines r = ([], r) := by
  induction r with
  | nil => rfl
  | cons c rest ih =>
    have hc : ¬ c = '\n' := fun hcc => h (by rw [hcc]; exact List.mem_cons_self _ _)
    rw [processCompleteLines_cons,
      ih (fun hm => h (List.mem_cons_of_mem c hm)), if_neg hc]

/-- Completeness of the line extraction: the extraction is the unique
decomposition into newline-terminated newline-free lines plus a
newline-free remainder. -/
theorem processCompleteLines_join (ls : List QChars) (r : QChars)
    (hls : ∀ l ∈ ls, '\n' ∉ l) (hr : '\n' ∉ r) :
    processCompleteLines (joinLines ls ++ r) = (ls, r) := by
  induction ls with
  | nil => simpa [joinLines] using processCompleteLines_no_newline r hr
  | cons l ls ih =>
    have hl : '\n' ∉ l := hls l (List.mem_cons_self l ls)
    have ih' := ih (fun x hx => hls x (List.mem_cons_of_mem l hx))
    have key : ∀ (x : QChars), '\n' ∉ x →
        processCompleteLines (x ++ '\n' :: (joinLines ls ++ r)) = (x :: ls, r) := by
      intro x
      induction x with
      | nil =>
        intro _
        rw [List.nil_append, processCompleteLines_cons, if_pos rfl, ih']
      | cons c x ihx =>
        intro hcx
        have hc : ¬ c = '\n' :=
          fun hcc => hcx (by rw [hcc]; exact List.mem_cons_self _ _)
        have hx : '\n' ∉ x := fun hm => hcx (List.mem_cons_of_mem c hm)
        rw [List.cons_append, processCompleteLines_cons, ihx hx, if_neg hc]
    rw [joinLines, List.append_assoc]
    exact key l hl

/-- C3: on a file-change notification the IPC manager appends the new data
to the newline buffer and takes off exactly the successive complete lines:
the extracted lines (each newline-free) followed by their newlines and the
newline-free leftover reassemble buffer ++ newData, and this decomposition
is unique, so data after the last newline stays buffered. -/
theorem claim_C3 (buffer newData : QChars) :
    joinLines (onFileChanged buffer newData).1
        ++ (onFileChanged buffer newData).2 = buffer ++ newData ∧
    (∀ l ∈ (onFileChanged buffer newData).1, '\n' ∉ l) ∧
    '\n' ∉ (onFileChanged buffer newData).2 ∧
    ∀ ls r, joinLines ls ++ r = buffer ++ newData → (∀ l ∈ ls, '\n' ∉ l) →
      '\n' ∉ r → onFileChanged buffer newData = (ls, r) := by
  obtain ⟨h1, h2, h3⟩ := processCompleteLines_spec (buffer ++ newData)
  refine ⟨h1, h2, h3, ?_⟩
  intro ls r hjoin hls hr
  show processCompleteLines (buffer ++ newData) = (ls, r)
  rw [← hjoin]
  exact processCompleteLines_join ls r hls hr

/-- C3 witness at a concrete buffer and read: "ab" + "c\nde" yields the
one complete line "abc" and leaves "de" buffered. -/
theorem claim_C3_witness :
    onFileChanged (qstr "ab") (qstr "c\nde") = ([qstr "abc"], qstr "de") :=
  (claim_C3 (qstr "ab") (qstr "c\nde")).2.2.2 [qstr "abc"] (qstr "de")
    (by decide) (by decide) (by decide)

/-- A JSON object's string type field matches at most one candidate. -/
theorem typeIs_ne (obj : List (String × Json)) (s s' : String)
    (h : typeIs obj s = true) (hne : s' ≠ s) : typeIs obj s' = false := by
  cases hg : getField obj "type" with
  | none => simp [typeIs, hg] at h
  | some j =>
    cases j with
    | str t =>
      simp only [typeIs, hg, decide_eq_true_eq] at h
      subst h
      simp only [typeIs, hg, decide_eq_false_iff_not]
      exact fun hh => hne hh.symm
    | null => simp [typeIs, hg] at h
    | bool b => simp [typeIs, hg] at h
    | num n => simp [typeIs, hg] at h
    | arr es => simp [typeIs, hg] at h
    | obj fs => simp [typeIs, hg] at h

/-- When every files entry is a well-formed object, the collection loop
succeeds with the paths and contents in array order. -/
theorem collectFiles_ok (files : List Json) (pcs : List (String × String))
    (h : List.Forall₂ FileEntryMatches files pcs) :
    collectFiles files = .ok (pcs.map Prod.fst, pcs.map Prod.snd) := by
  induction h with
  | nil => rfl
  | cons hfp _ ih =>
    obtain ⟨f, rfl, hp, hc⟩ := hfp
    simp [collectFiles, hp, hc, ih]

/-- C4: processReceivedJson dispatches by the type field: a valid
chatMessage appends exactly one message with that sender and text to the
chat model; a valid requestStatus sets the chat model's requestPending
flag to the boolean; a valid diffResult replaces the diff model's contents
with exactly the array's (path, content) pairs in order; diffApplied
clears the diff model. -/
theorem claim_C4 (st : CommState) :
    (∀ obj mt txt, typeIs obj "chatMessage" = true →
      getField obj "messageType" = some (.str mt) →
      getField obj "text" = some (.str txt) →
      (mt = "User" ∨ mt = "LLM") →
      processReceivedJson obj st =
        { st with chat := (st.chat.addMessage
            (if mt = "User" then MessageType.User else MessageType.LLM) txt) }) ∧
    (∀ obj b, typeIs obj "requestStatus" = true →
      getField obj "status" = some (.bool b) →
      (processReceivedJson obj st).chat.requestPending = b ∧
      (processReceivedJson obj st).chat.messages = st.chat.messages ∧
      (processReceivedJson obj st).diff = st.diff ∧
      (processReceivedJson obj st).errors = st.errors) ∧
    (∀ obj files pcs, typeIs obj "diffResult" = true →
      getField obj "files" = some (.arr files) →
      List.Forall₂ FileEntryMatches files pcs →
      processReceivedJson obj st =
        { st with diff := { filePaths := pcs.map Prod.fst,
                            fileContents := pcs.map Prod.snd } }) ∧
    (∀ obj, typeIs obj "diffApplied" = true →
      processReceivedJson obj st =
        { st with diff := { filePaths := [], fileContents := [] } }) := by
  refine ⟨?_, ?_, ?_, ?_⟩
  · intro obj mt txt h hmt htxt hor
    rcases hor with rfl | rfl
    · simp [processReceivedJson, h, hmt, htxt]
    · simp [processReceivedJson, h, hmt, htxt]
  · intro obj b h hb
    have h1 : typeIs obj "chatMessage" = false :=
      typeIs_ne obj "requestStatus" "chatMessage" h (by decide)
    refine ⟨?_, ?_, ?_, ?_⟩ <;>
      · simp only [processReceivedJson, h1, h, hb]
        by_cases hc : st.chat.requestPending = b <;>
          simp [ChatModel.setRequestPending, hc]
  · intro obj files pcs h hf hmatch
    have h1 : typeIs obj "chatMessage" = false :=
      typeIs_ne obj "diffResult" "chatMessage" h (by decide)
    have h2 : typeIs obj "requestStatus" = false :=
      typeIs_ne obj "diffResult" "requestStatus" h (by decide)
    have h3 : typeIs obj "diffApplied" = false :=
      typeIs_ne obj "diffResult" "diffApplied" h (by decide)
    simp [processReceivedJson, h1, h2, h3, h, hf,
      collectFiles_ok files pcs hmatch, DiffModel.setFiles]
  · intro obj h
    have h1 : typeIs obj "chatMessage" = false :=
      typeIs_ne obj "diffApplied" "chatMessage" h (by decide)
    have h2 : typeIs obj "requestStatus" = false :=
      typeIs_ne obj "diffApplied" "requestStatus" h (by decide)
    simp [processReceivedJson, h1, h2, h, DiffModel.clearDiffModel]

/-- C4 witness: a concrete valid chatMessage line appends one LLM message. -/
theorem claim_C4_witness :
    processReceivedJson
      [("type", .str "chatMessage"), ("messageType", .str "LLM"),
       ("text", .str "hello")]
      ⟨ChatModel.fresh, DiffModel.fresh, []⟩ =
    { chat := ChatModel.fresh.addMessage .LLM "hello",
      diff := DiffModel.fresh, errors := [] } := by
  have h := (claim_C4 ⟨ChatModel.fresh, DiffModel.fresh, []⟩).1
    [("type", .str "chatMessage"), ("messageType", .str "LLM"),
     ("text", .str "hello")]
    "LLM" "hello" rfl rfl rfl (Or.inr rfl)
  simpa using h

/-- C5: a line that fails to parse, parses to a non-object, or is an
object failing the validity checks of its declared type only appends one
error notification: the chat and diff models are untouched. -/
theorem claim_C5 (parsed : Option Json) (st : CommState)
    (h : parsed = none ∨
      (∃ j, parsed = some j ∧ ∀ f, j ≠ Json.obj f) ∨
      (∃ obj, parsed = some (.obj obj) ∧
        ((typeIs obj "chatMessage" = true ∧ chatMessageValid obj = false) ∨
         (typeIs obj "requestStatus" = true ∧ requestStatusValid obj = false) ∨
         (typeIs obj "diffResult" = true ∧ diffResultValid obj = false)))) :
    ∃ e, handleParsed parsed st = { st with errors := st.errors ++ [e] } := by
  rcases h with rfl | ⟨j, rfl, hobj⟩ | ⟨obj, rfl, hbad⟩
  · exact ⟨"JSON Parse Error", rfl⟩
  · cases j with
    | obj f => exact absurd rfl (hobj f)
    | null => exact ⟨_, rfl⟩
    | bool b => exact ⟨_, rfl⟩
    | num n => exact ⟨_, rfl⟩
    | str s => exact ⟨_, rfl⟩
    | arr es => exact ⟨_, rfl⟩
  · show ∃ e, processReceivedJson obj st = _
    rcases hbad with ⟨ht, hv⟩ | ⟨ht, hv⟩ | ⟨ht, hv⟩
    · simp only [processReceivedJson, ht, if_true]
      split
      · next mt _ hmt htxt =>
        simp only [chatMessageValid, hmt, htxt, Bool.or_eq_false_iff,
          decide_eq_false_iff_not] at hv
        rw [if_neg hv.1, if_neg hv.2]
        exact ⟨_, rfl⟩
      · next => exact ⟨_, rfl⟩
    · have h1 : typeIs obj "chatMessage" = false :=
        typeIs_ne obj "requestStatus" "chatMessage" ht (by decide)
      simp only [processReceivedJson, h1, ht, if_true, Bool.false_eq_true,
        if_false]
      split
      · next b hb => simp [requestStatusValid, hb] at hv
      · next => exact ⟨_, rfl⟩
    · have h1 : typeIs obj "chatMessage" = false :=
        typeIs_ne obj "diffResult" "chatMessage" ht (by decide)
      have h2 : typeIs obj "requestStatus" = false :=
        typeIs_ne obj "diffResult" "requestStatus" ht (by decide)
      have h3 : typeIs obj "diffApplied" = false :=
        typeIs_ne obj "diffResult" "diffApplied" ht (by decide)
      simp only [processReceivedJson, h1, h2, h3, ht, if_true,
        Bool.false_eq_true, if_false]
      split
      · next files hf =>
        simp only [diffResultValid, hf] at hv
        cases hcf : collectFiles files with
        | ok r => simp [hcf] at hv
        | error e =>
          simp only [hcf]
          exact ⟨_, rfl⟩
      · next => exact ⟨_, rfl⟩

/-- C5 witness: a line that parses to a bare number only records an
error. -/
theorem claim_C5_witness :
    ∃ e, handleParsed (some (.num 3)) ⟨ChatModel.fresh, DiffModel.fresh, []⟩ =
      { chat := ChatModel.fresh, diff := DiffModel.fresh, errors := [] ++ [e] } :=
  claim_C5 (some (.num 3)) ⟨ChatModel.fresh, DiffModel.fresh, []⟩
    (Or.inr (Or.inl ⟨.num 3, rfl, fun f hf => by cases hf⟩))

/-- Appending one mapped element per step is mapping. -/
theorem foldl_append_singleton {α β : Type} (f : α → β) :
    ∀ (ls : List α) (acc : List β),
      ls.foldl (fun acc l => acc ++ [f l]) acc = acc ++ ls.map f
  | [], acc => by simp
  | l :: ls, acc => by
    rw [List.foldl_cons, foldl_append_singleton f ls (acc ++ [f l])]
    simp

/-- C1 amended (simple variant of src/qtsrc/src/components/diffview.cpp):
parseDiffContent splits on newline and yields exactly one record per line
by prefix scanning: a '+' line becomes Added without the '+', a '-' line
becomes Removed without the '-', anything else an unaltered Unchanged
line. -/
theorem claim_C1_amended (content : QChars) :
    (SimpleDiffView.parseDiffContent content).length
        = (splitQ content).length ∧
    ∀ i, i < (splitQ content).length →
      (SimpleDiffView.parseDiffContent content).getD i ⟨[], .Unchanged⟩ =
        match (splitQ content).getD i [] with
        | '+' :: t => { text := t, changeType := ChangeType.Added }
        | '-' :: t => { text := t, changeType := ChangeType.Removed }
        | l => { text := l, changeType := ChangeType.Unchanged } := by
  have hp : SimpleDiffView.parseDiffContent content
      = (splitQ content).map SimpleDiffView.classifyLine := by
    show (splitQ content).foldl
        (fun acc l => acc ++ [SimpleDiffView.classifyLine l]) []
      = (splitQ content).map SimpleDiffView.classifyLine
    rw [foldl_append_singleton]
    simp
  refine ⟨by rw [hp]; simp, ?_⟩
  intro i hi
  rw [hp, List.getD_eq_getElem _ _ (by simpa using hi),
    List.getD_eq_getElem _ _ hi, List.getElem_map]
  rfl

/-- C1 witness: the middle line of "+a\n-b\nc" becomes a Removed record
with text "b". -/
theorem claim_C1_witness :
    (SimpleDiffView.parseDiffContent (qstr "+a\n-b\nc")).getD 1
        ⟨[], .Unchanged⟩ = ⟨qstr "b", ChangeType.Removed⟩ := by
  rw [(claim_C1_amended (qstr "+a\n-b\nc")).2 1 (by decide)]
  rfl

/-- C1 counterexample: the claim also cites the diffviewer variant, whose
parseDiffContent maps the one-line input "@@ -1 +1 @@" to no record at
all, so that variant does not produce exactly one record per input line. -/
theorem claim_C1_counterexample :
    HunkDiffView.parseDiffContent (qstr "@@ -1 +1 @@") = [] ∧
    (splitQ (qstr "@@ -1 +1 @@")).length = 1 := ⟨rfl, rfl⟩

/-- Unfolding equation for the diffviewer parse loop on a non-empty line
list. -/
theorem parseLines_cons (line : QChars) (rest : List QChars) (o m : Nat)
    (full : Bool) :
    HunkDiffView.parseLines (line :: rest) o m full =
      match HunkDiffView.matchHunkHeader line with
      | some (a, c) => HunkDiffView.parseLines rest a c full
      | none =>
        if line.take 3 = ['-', '-', '-'] then
          match rest with
          | [] => ([], full)
          | _ :: rest2 => HunkDiffView.parseLines rest2 o m full
        else if line.take 1 = ['+'] then
          let r := HunkDiffView.parseLines rest o (m + 1) full
          (⟨.Added, line.drop 1, 0, m⟩ :: r.1, r.2)
        else if line.take 1 = ['-'] then
          let r := HunkDiffView.parseLines rest (o + 1) m false
          (⟨.Removed, line.drop 1, o, 0⟩ :: r.1, r.2)
        else
          let r := HunkDiffView.parseLines rest (o + 1) (m + 1) false
          (⟨.Unchanged, line, o, m⟩ :: r.1, r.2) := by
  cases rest with
  | nil => rw [HunkDiffView.parseLines.eq_2]
  | cons l ls => rw [HunkDiffView.parseLines.eq_3]

/-- A line starting with a dash never matches the hunk-header regex. -/
theorem matchHunkHeader_dash (t : QChars) :
    HunkDiffView.matchHunkHeader ('-' :: t) = none := rfl

/-- A line starting with a plus never matches the hunk-header regex. -/
theorem matchHunkHeader_plus (t : QChars) :
    HunkDiffView.matchHunkHeader ('+' :: t) = none := rfl

/-- C7 amended: in the diffviewer parser a hunk-header line produces no
record and resets the counters to its captured numbers; thereafter a
Removed line takes and increments only the original counter, an Added
line takes and increments only the modified counter, and an Unchanged
line takes and increments both; the parsed records are returned unchanged
provided some Removed or Unchanged record occurred (otherwise the final
full-addition rewrite zeroes every line number). -/
theorem claim_C7_amended :
    (∀ line rest o m full a c,
      HunkDiffView.matchHunkHeader line = some (a, c) →
      HunkDiffView.parseLines (line :: rest) o m full =
        HunkDiffView.parseLines rest a c full) ∧
    (∀ t rest o m full, ('-' :: t : QChars).take 3 ≠ ['-', '-', '-'] →
      HunkDiffView.parseLines (('-' :: t) :: rest) o m full =
        (⟨.Removed, t, o, 0⟩ ::
            (HunkDiffView.parseLines rest (o + 1) m false).1,
          (HunkDiffView.parseLines rest (o + 1) m false).2)) ∧
    (∀ t rest o m full,
      HunkDiffView.parseLines (('+' :: t) :: rest) o m full =
        (⟨.Added, t, 0, m⟩ ::
            (HunkDiffView.parseLines rest o (m + 1) full).1,
          (HunkDiffView.parseLines rest o (m + 1) full).2)) ∧
    (∀ line rest o m full, HunkDiffView.matchHunkHeader line = none →
      line.take 3 ≠ ['-', '-', '-'] → line.take 1 ≠ ['+'] →
      line.take 1 ≠ ['-'] →
      HunkDiffView.parseLines (line :: rest) o m full =
        (⟨.Unchanged, line, o, m⟩ ::
            (HunkDiffView.parseLines rest (o + 1) (m + 1) false).1,
          (HunkDiffView.parseLines rest (o + 1) (m + 1) false).2)) ∧
    (∀ content,
      (HunkDiffView.parseLines (splitQ content) 1 1 true).2 = false →
      HunkDiffView.parseDiffContent content =
        (HunkDiffView.parseLines (splitQ content) 1 1 true).1) := by
  refine ⟨?_, ?_, ?_, ?_, ?_⟩
  · intro line rest o m full a c hmatch
    rw [parseLines_cons]
    simp [hmatch]
  · intro t rest o m full h3
    rw [parseLines_cons]
    simp [matchHunkHeader_dash, h3]
    intro hh
    exact absurd (by simp [hh]) h3
  · intro t rest o m full
    rw [parseLines_cons]
    simp [matchHunkHeader_plus]
  · intro line rest o m full hm h3 hplus hdash
    rw [parseLines_cons]
    simp [hm, h3, hplus, hdash]
  · intro content hfull
    simp [HunkDiffView.parseDiffContent, hfull]

/-- C7 witness: a concrete hunk header resets the counters to 5 and 7 and
a following Removed line is numbered 5 on the original side. -/
theorem claim_C7_witness :
    HunkDiffView.parseLines [qstr "@@ -5 +7 @@", qstr "-y"] 1 1 true =
      HunkDiffView.parseLines [qstr "-y"] 5 7 true ∧
    HunkDiffView.parseLines [qstr "-y"] 5 7 true =
      (⟨.Removed, qstr "y", 5, 0⟩ ::
          (HunkDiffView.parseLines [] 6 7 false).1,
        (HunkDiffView.parseLines [] 6 7 false).2) :=
  ⟨claim_C7_amended.1 (qstr "@@ -5 +7 @@") [qstr "-y"] 1 1 true 5 7
      (by decide),
    claim_C7_amended.2.1 (qstr "y") [] 5 7 true (by decide)⟩

/-- C7 counterexample: on "@@ -5 +7 @@\n+x" the header captures 5 and 7,
yet the Added line comes out with modified line number 0, not 7: the
parse produced only Added records, so the full-addition rewrite zeroed the
numbers. -/
theorem claim_C7_counterexample :
    HunkDiffView.matchHunkHeader (qstr "@@ -5 +7 @@") = some (5, 7) ∧
    HunkDiffView.parseDiffContent (qstr "@@ -5 +7 @@\n+x") =
      [{ changeType := .Added, text := qstr "x", originalLineNumber := 0,
         modifiedLineNumber := 0 }] ∧
    (HunkDiffView.parseDiffContent (qstr "@@ -5 +7 @@\n+x")).map
        HunkDiffView.DiffLine.modifiedLineNumber ≠ [7] :=
  ⟨rfl, rfl, by decide⟩
